import Mathlib

/-!
Shallow embedding of the configuration-merge helpers and editor-state
operations of the canvas-lms rich-content editor wrapper (`mergeMenuItems`,
`mergeMenu`, `mergeToolbar`, `mergePlugins`, `parsePluginsToExclude`,
placeholder insertion and removal, the alert list, the dirty-state check and
the ready-to-get-code check).

The implementation module `rce/RCEWrapper` is not part of the source tree;
only its test suite is.  Every definition below is therefore modelled from
the design specification and cross-checked against the concrete behaviour
pinned down by the test suite (`test/module/RCEWrapper.test.js`).
-/

namespace Rce

/-- Modelled from the spec: `mergePlugins` (its implementation module
`rce/RCEWrapper` is missing from the tree).  The base plugin list is
concatenated with the custom entries not already present in the base, and
every entry belonging to the exclusion list is then removed from the
combined result, preserving the order of the remaining entries. -/
def mergePlugins (standard : List String) (custom : List String := [])
    (exclusions : List String := []) : List String :=
  (standard ++ custom.filter (fun p => decide (p ∉ standard))).filter
    (fun p => decide (p ∉ exclusions))

/-- Modelled from the spec: `parsePluginsToExclude` (its implementation module
`rce/RCEWrapper` is missing from the tree).  A token that starts with a
hyphen is normalized by stripping the hyphen; any other token is dropped. -/
def stripHyphen (p : String) : Option String :=
  match p.data with
  | '-' :: rest => some (String.mk rest)
  | _ => none

/-- Modelled from the spec: `parsePluginsToExclude` keeps exactly the
hyphen-prefixed tokens, each with its leading hyphen stripped, in order. -/
def parsePluginsToExclude (plugins : List String) : List String :=
  plugins.filterMap stripHyphen

/-- Modelled from the spec: group splitting for `mergeMenuItems` (its
implementation module `rce/RCEWrapper` is missing from the tree).  A
pipe-delimited string is cut at every `|` character. -/
def splitPipes : List Char → List (List Char)
  | [] => [[]]
  | c :: cs =>
    match splitPipes cs with
    | [] => [[]]
    | g :: gs => if c = '|' then [] :: g :: gs else (c :: g) :: gs

/-- Modelled from the spec: token splitting for `mergeMenuItems`.  Inside a
group, item tokens are separated by whitespace. -/
def splitSpaces : List Char → List (List Char)
  | [] => [[]]
  | c :: cs =>
    match splitSpaces cs with
    | [] => [[]]
    | g :: gs => if c.isWhitespace then [] :: g :: gs else (c :: g) :: gs

/-- The item tokens of one pipe-delimited group: whitespace-separated words,
empty words dropped. -/
def tokensOfGroup (g : List Char) : List String :=
  ((splitSpaces g).filter (fun t => decide (t ≠ []))).map String.mk

/-- The groups of a menu-item string, each as its list of item tokens. -/
def menuGroups (s : String) : List (List String) :=
  (splitPipes s.data).map tokensOfGroup

/-- Drop the tokens of one group already seen, threading the set of seen
tokens; duplicate item tokens keep only their first occurrence. -/
def dedupGroup (seen : List String) : List String → List String × List String
  | [] => ([], seen)
  | t :: ts =>
    if t ∈ seen then dedupGroup seen ts
    else
      let r := dedupGroup (seen ++ [t]) ts
      (t :: r.1, r.2)

/-- Deduplicate item tokens across a whole sequence of groups, keeping the
first occurrence of each token. -/
def dedupGroups (seen : List String) : List (List String) → List (List String)
  | [] => []
  | g :: gs =>
    let r := dedupGroup seen g
    r.1 :: dedupGroups r.2 gs

/-- Join the tokens of one group with single spaces. -/
def joinTokens : List String → List Char
  | [] => []
  | [t] => t.data
  | t :: t2 :: ts => t.data ++ ' ' :: joinTokens (t2 :: ts)

/-- Join non-empty groups with the `" | "` group separator. -/
def joinGroups : List (List String) → List Char
  | [] => []
  | [g] => joinTokens g
  | g :: g2 :: gs => joinTokens g ++ ' ' :: '|' :: ' ' :: joinGroups (g2 :: gs)

/-- Reassemble a group sequence into a single menu-item string: empty groups
are dropped (consecutive separators collapse, no leading or trailing
separator). -/
def assembleMenuItems (gs : List (List String)) : String :=
  String.mk (joinGroups (gs.filter (fun g => decide (g ≠ []))))

/-- Modelled from the spec: merge one override string into a base menu-item
string.  All groups are concatenated in argument order, duplicate item
tokens are removed keeping the first occurrence, empty groups collapse, and
an empty override leaves the base unchanged. -/
def mergeMenuItemsOnce (standard custom : String) : String :=
  if custom = "" then standard
  else assembleMenuItems (dedupGroups [] (menuGroups standard ++ menuGroups custom))

/-- Modelled from the spec: `mergeMenuItems` over a base string and zero or
more override strings; with no overrides the base is returned unchanged. -/
def mergeMenuItems (standard : String) (customs : List String := []) : String :=
  customs.foldl mergeMenuItemsOnce standard

section MergeByKey

variable {α K : Type} [DecidableEq K]

/-- Modelled from the spec: one step of a keyed merge (shared shape of
`mergeToolbar` and `mergeMenu`).  Every entry of the accumulator whose key
matches the override's key has the override merged into it; when no entry
matches, the override is appended at the end. -/
def upsertBy (merge : α → α → α) (key : α → K) (acc : List α) (g : α) : List α :=
  if acc.any (fun t => decide (key t = key g)) then
    acc.map (fun t => if key t = key g then merge t g else t)
  else acc ++ [g]

/-- Modelled from the spec: fold every override into the base list, in
override order. -/
def mergeByKey (merge : α → α → α) (key : α → K) (standard custom : List α) :
    List α :=
  custom.foldl (upsertBy merge key) standard

/-- The specification form of a keyed merge: each base entry merged with the
override of matching key when one exists (base order preserved), followed by
the overrides whose key occurs nowhere in the base, in override order. -/
def mergeSpecForm (merge : α → α → α) (key : α → K) (standard custom : List α) :
    List α :=
  standard.map (fun t =>
    match custom.find? (fun c => decide (key c = key t)) with
    | some c => merge t c
    | none => t) ++
  custom.filter (fun c => !standard.any (fun t => decide (key t = key c)))

end MergeByKey

/-- A toolbar group: a name together with an ordered array of item
identifiers. -/
structure ToolbarGroup where
  name : String
  items : List String
deriving DecidableEq

/-- Modelled from the spec: `mergeToolbar` (its implementation module
`rce/RCEWrapper` is missing from the tree).  Override groups are matched to
base groups by name; a matched group has the override's item array appended
to its own without deduplication, an unmatched override group is appended at
the end, and with no override list the base is returned unchanged. -/
def mergeToolbar (standard : List ToolbarGroup) :
    Option (List ToolbarGroup) → List ToolbarGroup
  | none => standard
  | some custom =>
      mergeByKey (fun t g => ToolbarGroup.mk t.name (t.items ++ g.items))
        (fun t => t.name) standard custom

/-- A menu entry: an optional title together with a pipe-delimited item
string. -/
structure MenuEntry where
  title : Option String
  items : String
deriving DecidableEq

/-- Modelled from the spec: `mergeMenu` (its implementation module
`rce/RCEWrapper` is missing from the tree).  The menus are key-to-entry
mappings kept in insertion order; a key present in the base keeps its title
and has its item string merged with the override's per the menu-item rules,
a key present only in the override is inserted verbatim at the end, and with
no override mapping the base is returned unchanged. -/
def mergeMenu (standard : List (String × MenuEntry)) :
    Option (List (String × MenuEntry)) → List (String × MenuEntry)
  | none => standard
  | some custom =>
      mergeByKey
        (fun p o => (p.1, MenuEntry.mk p.2.title (mergeMenuItems p.2.items [o.2.items])))
        (fun p => p.1) standard custom

/-- Modelled from the spec: the display-dimension rule for image
placeholders (its implementation module `rce/RCEWrapper` is missing from the
tree).  An image wider than the host container is scaled down to the
container's width preserving aspect ratio; an image that already fits keeps
its natural dimensions. -/
def imagePlaceholderDims (naturalWidth naturalHeight containerWidth : Nat) :
    Nat × Nat :=
  if containerWidth < naturalWidth then
    (containerWidth, naturalHeight * containerWidth / naturalWidth)
  else (naturalWidth, naturalHeight)

/-- The data carried by the synthesized inline placeholder markup: the
accessible loading label, the content-identifying attribute and the display
dimensions in pixels. -/
structure PlaceholderMarkup where
  ariaLabel : String
  placeholderFor : String
  width : Nat
  height : Nat
deriving DecidableEq

/-- Modelled from the spec: `insertImagePlaceholder` for an image asset with
a preview of the given natural size inserted into a host container of the
given width. -/
def insertImagePlaceholder (name : String)
    (naturalWidth naturalHeight containerWidth : Nat) : PlaceholderMarkup :=
  let d := imagePlaceholderDims naturalWidth naturalHeight containerWidth
  PlaceholderMarkup.mk "Loading" name d.1 d.2

/-- A document element as seen by the placeholder logic: an element kind and
the value of its `data-placeholder-for` attribute (`none` when the attribute
is absent). -/
structure DocElem where
  tag : String
  placeholderFor : Option String
deriving DecidableEq

/-- Modelled from the spec: `removePlaceholders` removes from the document
exactly the placeholder elements whose content-identifying attribute equals
the given identifier, by exact match, leaving every other element in place. -/
def removePlaceholders (name : String) : List DocElem → List DocElem
  | [] => []
  | e :: es =>
    if e.placeholderFor = some name then removePlaceholders name es
    else e :: removePlaceholders name es

/-- The warning shown when content is still uploading. -/
def uploadInProgressWarning : String :=
  "Content is still being uploaded, if you continue it will not be embedded properly."

/-- Whether the document still contains an element carrying a
`data-placeholder-for` attribute. -/
def hasPlaceholders (doc : List DocElem) : Bool :=
  doc.any (fun e => e.placeholderFor.isSome)

/-- Modelled from the spec: `checkReadyToGetCode` returns `true` untouched
when no placeholder element remains; otherwise it prompts with the upload
warning and returns the prompt's answer.  The second component records the
prompts issued, so "without calling the prompt function" is observable. -/
def checkReadyToGetCode (doc : List DocElem) (promptFunc : String → Bool) :
    Bool × List String :=
  if hasPlaceholders doc then
    (promptFunc uploadInProgressWarning, [uploadInProgressWarning])
  else (true, [])

/-- One stored alert message: its identifier and its text. -/
structure AlertMessage where
  id : Nat
  text : String
deriving DecidableEq

/-- The alert-area state: the stored messages plus the next identifier to
assign. -/
structure AlertState where
  messages : List AlertMessage
  nextId : Nat
deriving DecidableEq

/-- The alert area right after `resetAlertId`: no messages, identifiers
starting at 0. -/
def initialAlertState : AlertState := AlertState.mk [] 0

/-- Modelled from the spec: `addAlert` stores a new message with the next
identifier unless a message with exactly the same text is already stored. -/
def addAlert (s : AlertState) (text : String) : AlertState :=
  if s.messages.any (fun m => decide (m.text = text)) then s
  else AlertState.mk (s.messages ++ [AlertMessage.mk s.nextId text]) (s.nextId + 1)

/-- Modelled from the spec: `removeAlert` removes the stored message carrying
the given identifier. -/
def removeAlert (s : AlertState) (i : Nat) : AlertState :=
  AlertState.mk (s.messages.filter (fun m => decide (m.id ≠ i))) s.nextId

/-- A call against the alert area. -/
inductive AlertOp where
  | add (text : String)
  | remove (i : Nat)
deriving DecidableEq

/-- Apply one alert-area call. -/
def applyAlertOp (s : AlertState) : AlertOp → AlertState
  | AlertOp.add t => addAlert s t
  | AlertOp.remove i => removeAlert s i

/-- Run a sequence of alert-area calls from the initial state. -/
def runAlertOps (ops : List AlertOp) : AlertState :=
  ops.foldl applyAlertOp initialAlertState

/-- The alert-list invariant: stored texts are pairwise distinct,
identifiers strictly increase along the list, and every identifier is below
the next one to assign. -/
def alertInvariant (s : AlertState) : Bool :=
  decide ((s.messages.map (fun m => m.text)).Nodup) &&
  decide ((s.messages.map (fun m => m.id)).Pairwise (fun a b => a < b)) &&
  s.messages.all (fun m => decide (m.id < s.nextId))

/-- The editor-surface state seen by the dirty check: whether the rich
editing surface is hidden (raw mode), the current rich content, the raw
textarea value, and the configured default content. -/
structure EditorState where
  hidden : Bool
  content : String
  textareaValue : String
  defaultContent : String
deriving DecidableEq

/-- Modelled from the spec: `is_dirty` compares the serialized current
content (the raw textarea value when the surface is in raw mode) against the
serialized default content. -/
def is_dirty (serialize : String → String) (s : EditorState) : Bool :=
  let current := if s.hidden then s.textareaValue else serialize s.content
  if current = serialize s.defaultContent then false else true

theorem stripHyphen_eq_some {q p : String} (h : stripHyphen q = some p) :
    q = "-" ++ p := by
  rcases q with ⟨l⟩
  cases l with
  | nil => simp [stripHyphen] at h
  | cons c rest =>
    by_cases hc : c = '-'
    · subst hc
      simp only [stripHyphen, Option.some.injEq] at h
      subst h
      rfl
    · simp [stripHyphen, hc] at h

theorem stripHyphen_hyphen_append (p : String) : stripHyphen ("-" ++ p) = some p := by
  rcases p with ⟨l⟩
  rfl

/-- C1: `mergePlugins` returns the base list concatenated with the custom
entries not already present in the base, with every entry of the exclusion
set removed from the combined result (base entries included), the relative
order of the remaining entries preserved; in particular
`mergePlugins ["foo","bar"] ["foo","baz"] ["baz"] = ["foo","bar"]`. -/
theorem mergePlugins_spec :
    mergePlugins ["foo", "bar"] ["foo", "baz"] ["baz"] = ["foo", "bar"] ∧
    (∀ b c : List String,
      mergePlugins b c [] = b ++ c.filter (fun p => decide (p ∉ b))) ∧
    (∀ b c e : List String, ∀ x : String, x ∈ e → x ∉ mergePlugins b c e) ∧
    (∀ b c e : List String, (mergePlugins b c e).Sublist (b ++ c)) ∧
    (∀ b : List String, mergePlugins b = b) := by
  refine ⟨by decide, ?_, ?_, ?_, ?_⟩
  · intro b c
    simp [mergePlugins]
  · intro b c e x hx hmem
    rw [mergePlugins, List.mem_filter] at hmem
    exact (of_decide_eq_true hmem.2) hx
  · intro b c e
    exact (List.filter_sublist _).trans
      (List.Sublist.append (List.Sublist.refl b) (List.filter_sublist _))
  · intro b
    simp [mergePlugins]

/-- Witness for C1 at a concrete input: the element "baz" of the exclusion
list does not occur in `mergePlugins ["foo","bar"] ["foo","baz"] ["baz"]`. -/
theorem mergePlugins_spec_witness :
    "baz" ∈ (["baz"] : List String) ∧
      "baz" ∉ mergePlugins ["foo", "bar"] ["foo", "baz"] ["baz"] :=
  ⟨by decide, mergePlugins_spec.2.2.1 ["foo", "bar"] ["foo", "baz"] ["baz"] "baz"
    (by decide)⟩

/-- C3: `parsePluginsToExclude` returns exactly the hyphen-prefixed tokens
with the hyphen stripped: a name `p` is in the output iff `"-" ++ p` is in
the input, so tokens without a leading hyphen contribute nothing; in
particular `parsePluginsToExclude ["-x","y"] = ["x"]` and
`parsePluginsToExclude ["-abc","def","-ghi","jkl"] = ["abc","ghi"]`. -/
theorem parsePluginsToExclude_spec :
    parsePluginsToExclude ["-x", "y"] = ["x"] ∧
    parsePluginsToExclude ["-abc", "def", "-ghi", "jkl"] = ["abc", "ghi"] ∧
    (∀ l : List String, ∀ p : String,
      p ∈ parsePluginsToExclude l ↔ ("-" ++ p) ∈ l) := by
  refine ⟨by decide, by decide, ?_⟩
  intro l p
  rw [parsePluginsToExclude, List.mem_filterMap]
  constructor
  · rintro ⟨q, hq, hstrip⟩
    rwa [stripHyphen_eq_some hstrip] at hq
  · intro h
    exact ⟨"-" ++ p, h, stripHyphen_hyphen_append p⟩

/-- C2 counterexample: joining groups uses the `" | "` separator with
surrounding spaces, so `mergeMenuItems "a|b" ["c"]` is `"a | b | c"`, not
`"a|b|c"` as the claim states. -/
theorem mergeMenuItems_pipe_counterexample :
    mergeMenuItems "a|b" ["c"] ≠ "a|b|c" := by decide

/-- C2 (amended): `mergeMenuItems` concatenates all groups in argument
order, removes duplicate item tokens keeping the first occurrence, collapses
consecutive separators, produces no leading or trailing separator, renders
the group separator as `" | "`, and returns the base unchanged when no
override strings are given; in particular
`mergeMenuItems "a|b" ["c"] = "a | b | c"`. -/
theorem mergeMenuItems_spec :
    (∀ s : String, mergeMenuItems s [] = s) ∧
    mergeMenuItems "a|b" ["c"] = "a | b | c" ∧
    mergeMenuItems "foo bar | baz" ["fizz buzz"] = "foo bar | baz | fizz buzz" ∧
    mergeMenuItems "foo bar | baz" ["fizz | buzz"] = "foo bar | baz | fizz | buzz" ∧
    mergeMenuItems "foo bar | baz" ["fizz buzz | baz"] = "foo bar | baz | fizz buzz" ∧
    mergeMenuItems "foo bar | baz" ["baz | fizz buzz "] = "foo bar | baz | fizz buzz" ∧
    mergeMenuItems "a||b" ["c"] = "a | b | c" ∧
    mergeMenuItems "|a|" ["b"] = "a | b" :=
  ⟨fun _ => rfl, by decide, by decide, by decide, by decide, by decide,
    by decide, by decide⟩

theorem mergeByKey_eq_specForm {α K : Type} [DecidableEq K]
    (merge : α → α → α) (key : α → K)
    (hkey : ∀ t c, key (merge t c) = key t) :
    ∀ (cs std : List α), (cs.map key).Nodup →
      mergeByKey merge key std cs = mergeSpecForm merge key std cs := by
  intro cs
  induction cs with
  | nil =>
    intro std _
    simp [mergeByKey, mergeSpecForm]
  | cons c rest ih =>
    intro std hcs
    rw [List.map_cons, List.nodup_cons] at hcs
    obtain ⟨hc, hrest⟩ := hcs
    have hnotin : ∀ x ∈ rest, key x ≠ key c := by
      intro x hx hkx
      apply hc
      rw [← hkx]
      exact List.mem_map_of_mem key hx
    have hfindrest : ∀ u : α, key u = key c →
        rest.find? (fun x => decide (key x = key u)) = none := by
      intro u hu
      rw [List.find?_eq_none]
      intro x hx
      simp [hu, hnotin x hx]
    have hstep : mergeByKey merge key std (c :: rest)
        = mergeByKey merge key (upsertBy merge key std c) rest := rfl
    rw [hstep, ih (upsertBy merge key std c) hrest]
    rcases Bool.eq_false_or_eq_true (std.any (fun t => decide (key t = key c)))
      with h | h
    · -- some base entry matches: the override is merged into the base entries
      have hup : upsertBy merge key std c
          = std.map (fun t => if key t = key c then merge t c else t) := by
        rw [upsertBy, if_pos h]
      rw [hup]
      unfold mergeSpecForm
      congr 1
      · rw [List.map_map]
        apply List.map_congr_left
        intro t _
        rcases eq_or_ne (key t) (key c) with ht | ht
        · simp only [Function.comp_apply, if_pos ht]
          rw [hfindrest (merge t c) ((hkey t c).trans ht)]
          rw [List.find?_cons_of_pos _ (by simp [ht])]
        · simp only [Function.comp_apply, if_neg ht]
          rw [List.find?_cons_of_neg _ (by
            simp only [decide_eq_true_eq]
            exact fun h2 => ht h2.symm)]
      · have hpred : ∀ x : α,
            (std.map (fun t => if key t = key c then merge t c else t)).any
              (fun t => decide (key t = key x))
            = std.any (fun t => decide (key t = key x)) := by
          intro x
          rw [List.any_map]
          congr 1
          funext t
          rcases eq_or_ne (key t) (key c) with ht | ht
          · simp only [Function.comp_apply, if_pos ht, hkey t c]
          · simp only [Function.comp_apply, if_neg ht]
        have hdrop : (c :: rest).filter
              (fun x => !std.any (fun t => decide (key t = key x)))
            = rest.filter (fun x => !std.any (fun t => decide (key t = key x))) := by
          apply List.filter_cons_of_neg
          simp [h]
        rw [hdrop]
        apply List.filter_congr
        intro x _
        rw [hpred x]
    · -- no base entry matches: the override is appended at the end
      have hstdnot : ∀ t ∈ std, key t ≠ key c := by
        intro t ht
        have h2 := List.any_eq_false.mp h t ht
        simpa using h2
      have hup : upsertBy merge key std c = std ++ [c] := by
        rw [upsertBy, if_neg]
        simp [h]
      rw [hup]
      unfold mergeSpecForm
      simp only [List.map_append, List.map_cons, List.map_nil,
        hfindrest c rfl]
      have hmapeq : std.map (fun t =>
            match rest.find? (fun c' => decide (key c' = key t)) with
            | some c' => merge t c'
            | none => t)
          = std.map (fun t =>
            match (c :: rest).find? (fun c' => decide (key c' = key t)) with
            | some c' => merge t c'
            | none => t) := by
        apply List.map_congr_left
        intro t ht
        rw [List.find?_cons_of_neg _ (by
          simp only [decide_eq_true_eq]
          exact fun h2 => hstdnot t ht h2.symm)]
      rw [hmapeq]
      have hfilt : rest.filter
            (fun x => !(std ++ [c]).any (fun t => decide (key t = key x)))
          = rest.filter (fun x => !std.any (fun t => decide (key t = key x))) := by
        apply List.filter_congr
        intro x hx
        rw [List.any_append]
        have h2 : [c].any (fun t => decide (key t = key x)) = false := by
          simp only [List.any_cons, List.any_nil, Bool.or_false,
            decide_eq_false_iff_not]
          exact fun h3 => hnotin x hx h3.symm
        rw [h2, Bool.or_false]
      rw [hfilt]
      have hkeep : (c :: rest).filter
            (fun x => !std.any (fun t => decide (key t = key x)))
          = c :: rest.filter (fun x => !std.any (fun t => decide (key t = key x))) := by
        apply List.filter_cons_of_pos
        simp [h]
      rw [hkeep, List.append_assoc, List.singleton_append]

/-- C4: `mergeToolbar` matches groups by name: each base group keeps its
position and has the item array of the override group of the same name
appended to its own without deduplication, override groups matching no base
group are appended at the end in override order, and with no override list
the base is returned unchanged. -/
theorem mergeToolbar_spec :
    (∀ std : List ToolbarGroup, mergeToolbar std none = std) ∧
    (∀ std cs : List ToolbarGroup, (cs.map (fun g => g.name)).Nodup →
      mergeToolbar std (some cs) =
        mergeSpecForm (fun t g => ToolbarGroup.mk t.name (t.items ++ g.items))
          (fun t => t.name) std cs) := by
  refine ⟨fun std => rfl, ?_⟩
  intro std cs h
  exact mergeByKey_eq_specForm
    (fun t g => ToolbarGroup.mk t.name (t.items ++ g.items))
    (fun t => t.name) (fun t c => rfl) cs std h

/-- Witness for C4 at the toolbar test vector: a matching "Formatting"
override has its items appended, a new "I Am New" group is appended at the
end. -/
theorem mergeToolbar_spec_witness :
    mergeToolbar
      [ToolbarGroup.mk "Styles" ["fontsizeselect", "formatselect"],
       ToolbarGroup.mk "Formatting" ["bold", "italic", "underline"]]
      (some [ToolbarGroup.mk "Formatting" ["foo", "bar"],
             ToolbarGroup.mk "I Am New" ["foo", "bar"]]) =
      [ToolbarGroup.mk "Styles" ["fontsizeselect", "formatselect"],
       ToolbarGroup.mk "Formatting" ["bold", "italic", "underline", "foo", "bar"],
       ToolbarGroup.mk "I Am New" ["foo", "bar"]] := by
  rw [mergeToolbar_spec.2 _ _ (by decide)]
  decide

/-- C5: `mergeMenu` keeps every base key in its original order with its
title untouched and its item string merged with the override's items per the
menu-item merge rules, inserts the keys present only in the override
verbatim after the base keys in override order, and returns the base
unchanged when no override mapping is given. -/
theorem mergeMenu_spec :
    (∀ std : List (String × MenuEntry), mergeMenu std none = std) ∧
    (∀ std cs : List (String × MenuEntry), (cs.map (fun p => p.1)).Nodup →
      mergeMenu std (some cs) =
        mergeSpecForm
          (fun p o => (p.1, MenuEntry.mk p.2.title (mergeMenuItems p.2.items [o.2.items])))
          (fun p => p.1) std cs) := by
  refine ⟨fun std => rfl, ?_⟩
  intro std cs h
  exact mergeByKey_eq_specForm
    (fun p o => (p.1, MenuEntry.mk p.2.title (mergeMenuItems p.2.items [o.2.items])))
    (fun p => p.1) (fun p o => rfl) cs std h

/-- Witness for C5 at the menu test vector: the "tools" override merges into
the existing menu (title kept), the "new_menu" override is appended
verbatim. -/
theorem mergeMenu_spec_witness :
    mergeMenu
      [("format", MenuEntry.mk (some "Format") "bold italic underline | removeformat"),
       ("insert", MenuEntry.mk (some "Insert")
          "instructure_links | inserttable instructure_media_embed | hr"),
       ("tools", MenuEntry.mk (some "Tools") "instructure_wordcount")]
      (some [("tools", MenuEntry.mk none "foo bar"),
             ("new_menu", MenuEntry.mk (some "New Menu") "foo bar")]) =
      [("format", MenuEntry.mk (some "Format") "bold italic underline | removeformat"),
       ("insert", MenuEntry.mk (some "Insert")
          "instructure_links | inserttable instructure_media_embed | hr"),
       ("tools", MenuEntry.mk (some "Tools") "instructure_wordcount | foo bar"),
       ("new_menu", MenuEntry.mk (some "New Menu") "foo bar")] := by
  rw [mergeMenu_spec.2 _ _ (by decide)]
  decide

/-- C6: a 1000×1000 image preview inserted into a 500px-wide container is
capped to 500×500 display dimensions (aspect-ratio-preserving cap to the
host container's width), and an image that already fits its container keeps
its natural dimensions. -/
theorem insertImagePlaceholder_capped :
    insertImagePlaceholder "green_square" 1000 1000 500
      = PlaceholderMarkup.mk "Loading" "green_square" 500 500 ∧
    (∀ (name : String) (w h cw : Nat), w ≤ cw →
      insertImagePlaceholder name w h cw = PlaceholderMarkup.mk "Loading" name w h) := by
  refine ⟨by decide, ?_⟩
  intro name w h cw hw
  simp only [insertImagePlaceholder, imagePlaceholderDims]
  rw [if_neg (by omega)]

/-- Witness for C6: a 10×10 image in a 500px-wide container keeps its
natural size. -/
theorem insertImagePlaceholder_capped_witness :
    (10 : Nat) ≤ 500 ∧
      insertImagePlaceholder "green_square" 10 10 500
        = PlaceholderMarkup.mk "Loading" "green_square" 10 10 :=
  ⟨by decide, insertImagePlaceholder_capped.2 "green_square" 10 10 500 (by decide)⟩

theorem alertInvariant_iff (s : AlertState) :
    alertInvariant s = true ↔
      (s.messages.map (fun m => m.text)).Nodup ∧
      (s.messages.map (fun m => m.id)).Pairwise (fun a b => a < b) ∧
      ∀ m ∈ s.messages, m.id < s.nextId := by
  simp [alertInvariant, List.all_eq_true, and_assoc]

theorem alertInvariant_addAlert {s : AlertState} (h : alertInvariant s = true)
    (t : String) : alertInvariant (addAlert s t) = true := by
  by_cases hmem : s.messages.any (fun m => decide (m.text = t)) = true
  · rw [addAlert, if_pos hmem]
    exact h
  · have hmemf : s.messages.any (fun m => decide (m.text = t)) = false :=
      Bool.eq_false_iff.mpr hmem
    have hnot : ∀ m ∈ s.messages, m.text ≠ t := by
      intro m hm
      simpa using List.any_eq_false.mp hmemf m hm
    rw [alertInvariant_iff] at h
    obtain ⟨htext, hid, hlt⟩ := h
    rw [addAlert, if_neg hmem, alertInvariant_iff]
    refine ⟨?_, ?_, ?_⟩
    · simp only [List.map_append, List.map_cons, List.map_nil]
      rw [List.nodup_append]
      refine ⟨htext, List.nodup_singleton _, ?_⟩
      intro a ha hb
      simp only [List.mem_singleton] at hb
      subst hb
      rw [List.mem_map] at ha
      obtain ⟨m, hm, hmt⟩ := ha
      exact hnot m hm hmt
    · simp only [List.map_append, List.map_cons, List.map_nil]
      rw [List.pairwise_append]
      refine ⟨hid, List.pairwise_singleton _ _, ?_⟩
      intro a ha b hb
      simp only [List.mem_singleton] at hb
      subst hb
      rw [List.mem_map] at ha
      obtain ⟨m, hm, hmi⟩ := ha
      rw [← hmi]
      exact hlt m hm
    · intro m hm
      rw [List.mem_append] at hm
      rcases hm with hm | hm
      · exact Nat.lt_trans (hlt m hm) (Nat.lt_succ_self _)
      · simp only [List.mem_singleton] at hm
        subst hm
        exact Nat.lt_succ_self _

theorem alertInvariant_removeAlert {s : AlertState} (h : alertInvariant s = true)
    (i : Nat) : alertInvariant (removeAlert s i) = true := by
  rw [alertInvariant_iff] at h
  obtain ⟨htext, hid, hlt⟩ := h
  rw [removeAlert, alertInvariant_iff]
  have hsub : (s.messages.filter (fun m => decide (m.id ≠ i))).Sublist s.messages :=
    List.filter_sublist _
  refine ⟨List.Nodup.sublist (hsub.map _) htext, hid.sublist (hsub.map _), ?_⟩
  intro m hm
  exact hlt m (hsub.subset hm)

theorem alertInvariant_foldl (ops : List AlertOp) :
    ∀ s : AlertState, alertInvariant s = true →
      alertInvariant (ops.foldl applyAlertOp s) = true := by
  induction ops with
  | nil => intro s h; exact h
  | cons op rest ih =>
    intro s h
    apply ih
    cases op with
    | add t => exact alertInvariant_addAlert h t
    | remove i => exact alertInvariant_removeAlert h i

/-- C7: after every sequence of `addAlert`/`removeAlert` calls the stored
messages have pairwise-distinct texts and strictly increasing identifiers,
all below the next identifier to assign; three `addAlert` calls with
identical text store exactly one message, three with distinct texts store
three. -/
theorem addAlert_invariant :
    (∀ ops : List AlertOp, alertInvariant (runAlertOps ops) = true) ∧
    (runAlertOps
      [AlertOp.add "Something went wrong uploading, check your connection and try again.",
       AlertOp.add "Something went wrong uploading, check your connection and try again.",
       AlertOp.add "Something went wrong uploading, check your connection and try again."]).messages.length
      = 1 ∧
    (runAlertOps
      [AlertOp.add "First", AlertOp.add "Second",
       AlertOp.add "Third"]).messages.length = 3 := by
  refine ⟨?_, by decide, by decide⟩
  intro ops
  exact alertInvariant_foldl ops initialAlertState (by decide)

/-- C8: `is_dirty` is false exactly when the compared content equals the
serialized default content: the serialized current content when the editing
surface is rendered, the raw textarea value when the surface is in raw
mode. -/
theorem is_dirty_spec :
    (∀ (serialize : String → String) (s : EditorState), s.hidden = false →
      (is_dirty serialize s = false ↔
        serialize s.content = serialize s.defaultContent)) ∧
    (∀ (serialize : String → String) (s : EditorState), s.hidden = true →
      (is_dirty serialize s = false ↔
        s.textareaValue = serialize s.defaultContent)) := by
  constructor
  · intro serialize s hh
    rcases eq_or_ne (serialize s.content) (serialize s.defaultContent) with he | he
    · simp [is_dirty, hh, he]
    · simp [is_dirty, hh, he]
  · intro serialize s hh
    rcases eq_or_ne s.textareaValue (serialize s.defaultContent) with he | he
    · simp [is_dirty, hh, he]
    · simp [is_dirty, hh, he]

/-- Witness for C8: with the identity serializer, matching content is clean
in rendered mode, and a matching textarea value is clean in raw mode. -/
theorem is_dirty_spec_witness :
    is_dirty (fun x => x) (EditorState.mk false "same" "other" "same") = false ∧
    is_dirty (fun x => x)
      (EditorState.mk true "other" "default content" "default content") = false :=
  ⟨(is_dirty_spec.1 (fun x => x) _ rfl).mpr rfl,
   (is_dirty_spec.2 (fun x => x) _ rfl).mpr rfl⟩

/-- C9: `removePlaceholders` removes from the document exactly the elements
whose `data-placeholder-for` attribute equals the given identifier by exact
match, every other element remaining in place in order; in particular, in a
document holding placeholders for `image1` and `image2`, removing `image1`
leaves the `image2` placeholder untouched. -/
theorem removePlaceholders_spec :
    (∀ (name : String) (doc : List DocElem),
      removePlaceholders name doc
        = doc.filter (fun e => decide (e.placeholderFor ≠ some name))) ∧
    removePlaceholders "image1"
      [DocElem.mk "img" (some "image1"), DocElem.mk "img" (some "image2")]
      = [DocElem.mk "img" (some "image2")] := by
  refine ⟨?_, by decide⟩
  intro name doc
  induction doc with
  | nil => rfl
  | cons e es ih =>
    simp only [removePlaceholders]
    rcases eq_or_ne e.placeholderFor (some name) with he | he
    · rw [if_pos he, ih, List.filter_cons_of_neg (by simp [he])]
    · rw [if_neg he, ih, List.filter_cons_of_pos (by simp [he])]

/-- C10: with no element carrying a `data-placeholder-for` attribute,
`checkReadyToGetCode` returns true and issues no prompt; with such an
element present it prompts once with the upload warning and returns exactly
the prompt function's answer. -/
theorem checkReadyToGetCode_spec :
    ∀ (doc : List DocElem) (promptFunc : String → Bool),
      (hasPlaceholders doc = false →
        checkReadyToGetCode doc promptFunc = (true, [])) ∧
      (hasPlaceholders doc = true →
        checkReadyToGetCode doc promptFunc
          = (promptFunc uploadInProgressWarning, [uploadInProgressWarning])) := by
  intro doc promptFunc
  constructor
  · intro h
    rw [checkReadyToGetCode, if_neg]
    simp [h]
  · intro h
    rw [checkReadyToGetCode, if_pos h]

/-- Witness for C10: the empty document returns true without prompting; a
document holding an `image1` placeholder returns the prompt's `false` answer
after prompting with the upload warning. -/
theorem checkReadyToGetCode_spec_witness :
    checkReadyToGetCode [] (fun _ => false) = (true, []) ∧
    checkReadyToGetCode [DocElem.mk "img" (some "image1")] (fun _ => false)
      = (false, [uploadInProgressWarning]) :=
  ⟨(checkReadyToGetCode_spec [] (fun _ => false)).1 (by decide),
   (checkReadyToGetCode_spec [DocElem.mk "img" (some "image1")] (fun _ => false)).2
     (by decide)⟩

end Rce
